import Mathlib

/-!
Verification of the numeric kernels in `src/yt/lagos/PointCombine.c` against
their natural-language specification.

Shallow embedding conventions:
* C `npy_int64` / `int` values are modelled as `ℤ` (or `ℕ` for loop counters
  and lengths that the code only ever uses non-negatively);
* C `npy_float64` values are modelled as exact rationals `ℚ` (the claims all
  concern exact arithmetic, and the rational model keeps every definition
  computable and every concrete run decidable);
* `log10` is not computable exactly, so the table-interpolation kernel is
  parametrised over the log function it uses; the claims about it constrain
  that parameter by the log-uniformity hypotheses the spec states;
* arrays are total functions from indices, carried next to explicit lengths,
  exactly as the C kernels carry a data pointer next to a length;
* in-place mutation becomes explicit state passing (`PtState`, `CubeState`,
  `BinState`), and each C loop becomes a `List.foldl` / structural recursion
  over the same index ranges the C iterates.
-/

/-! ### PointMerger (`Py_CombineGrids`, PointCombine.c lines 43-257) -/

/-- Immutable inputs of `Py_CombineGrids`: the two point sets (parallel
arrays with their lengths), the per-channel value arrays, and the
refinement factor.  `srcX` is also mutable in the C code; its mutable copy
lives in `PtState`. -/
structure PtArgs where
  srcLen : ℕ
  dstLen : ℕ
  srcX : ℕ → ℤ
  srcY : ℕ → ℤ
  srcMask : ℕ → ℤ
  srcWgt : ℕ → ℚ
  dstX : ℕ → ℤ
  dstY : ℕ → ℤ
  dstMask : ℕ → ℤ
  dstWgt : ℕ → ℚ
  numArrays : ℕ
  srcVals : ℕ → ℕ → ℚ
  dstVals : ℕ → ℕ → ℚ
  r : ℕ

/-- The buffers `Py_CombineGrids` mutates (`src_x`, `dst_wgt`, `dst_mask`,
the destination value channels) together with the running match counter. -/
structure PtState where
  srcX : ℕ → ℤ
  dstWgt : ℕ → ℚ
  dstMask : ℕ → ℤ
  dstVals : ℕ → ℕ → ℚ
  count : ℕ

/-- The match body of `Py_CombineGrids` (lines 197-206): on a coordinate
match at destination `di` for source `si` the code increments the counter,
does `dst_wgt[di] += src_wgt[di]`, recombines the mask with C logical
operators (which produce `0`/`1`), marks `src_x[si] = -1`, and adds every
source value channel into the destination channels. -/
def matchUpdate (A : PtArgs) (si di : ℕ) (st : PtState) : PtState :=
  { srcX := fun k => if k = si then -1 else st.srcX k
    dstWgt := fun k => if k = di then st.dstWgt di + A.srcWgt di else st.dstWgt k
    dstMask := fun k =>
      if k = di then
        (if (A.srcMask si ≠ 0 ∧ st.dstMask di ≠ 0) ∨ (A.r ≠ 1 ∧ st.dstMask di ≠ 0)
         then 1 else 0)
      else st.dstMask k
    dstVals := fun c k =>
      if c < A.numArrays ∧ k = di then st.dstVals c k + A.srcVals c si else st.dstVals c k
    count := st.count + 1 }

/-- The destination scan of `Py_CombineGrids` (lines 193-209): for the fine
coordinate `(fx, fy)` it walks the destination indices, skips consumed
destinations (`dst_x < 0`), applies `matchUpdate` on a coordinate match,
and `break`s out of the scan after a match when the refinement factor is 1. -/
def diScan (A : PtArgs) (si : ℕ) (fx fy : ℤ) : List ℕ → PtState → PtState
  | [], st => st
  | di :: rest, st =>
    if A.dstX di < 0 then diScan A si fx fy rest st
    else if fx = A.dstX di ∧ fy = A.dstY di then
      (if A.r = 1 then matchUpdate A si di st
       else diScan A si fx fy rest (matchUpdate A si di st))
    else diScan A si fx fy rest st

/-- The sub-offset loops of `Py_CombineGrids` (lines 189-211): both offsets
range over `[0, r)` and the destination scan runs at each fine coordinate. -/
def offLoop (A : PtArgs) (si : ℕ) (ix iy : ℤ) (st : PtState) : PtState :=
  (List.range A.r).foldl (fun st1 (xo : ℕ) =>
    (List.range A.r).foldl (fun st2 (yo : ℕ) =>
      diScan A si (ix + (xo : ℤ)) (iy + (yo : ℤ)) (List.range A.dstLen) st2) st1) st

/-- Initial mutable state: the caller-owned buffers as passed in. -/
def initState (A : PtArgs) : PtState :=
  { srcX := A.srcX, dstWgt := A.dstWgt, dstMask := A.dstMask
    dstVals := A.dstVals, count := 0 }

/-- One iteration of the outer source loop of `Py_CombineGrids` (lines
185-212): skip consumed sources (`src_x[si] < 0`), scale the source
coordinates by the refinement factor, and run the sub-offset loops. -/
def step (A : PtArgs) (st : PtState) (si : ℕ) : PtState :=
  if st.srcX si < 0 then st
  else offLoop A si ((A.r : ℤ) * st.srcX si) ((A.r : ℤ) * A.srcY si) st

/-- The whole merge kernel of `Py_CombineGrids`. -/
def Py_CombineGrids (A : PtArgs) : PtState :=
  (List.range A.srcLen).foldl (step A) (initState A)

/-- Specification-side predicate: the fine coordinate `(fx, fy)` matches
the valid (non-consumed) destination point `di`. -/
def dMatch (A : PtArgs) (fx fy : ℤ) (di : ℕ) : Prop :=
  0 ≤ A.dstX di ∧ fx = A.dstX di ∧ fy = A.dstY di

instance (A : PtArgs) (fx fy : ℤ) (di : ℕ) : Decidable (dMatch A fx fy di) := by
  unfold dMatch; infer_instance

/-- Specification-side match predicate: source `si` (with its initial
coordinates), sub-offset `(xo, yo)` and destination `di` form a
fine-coordinate match on valid (non-consumed) destination data. -/
def matchAt (A : PtArgs) (si xo yo di : ℕ) : Prop :=
  dMatch A ((A.r : ℤ) * A.srcX si + (xo : ℤ)) ((A.r : ℤ) * A.srcY si + (yo : ℤ)) di

instance (A : PtArgs) (si xo yo di : ℕ) : Decidable (matchAt A si xo yo di) := by
  unfold matchAt; infer_instance

/-- Boolean form of `dMatch`. -/
def dMatchB (A : PtArgs) (fx fy : ℤ) : ℕ → Bool :=
  fun di => decide (dMatch A fx fy di)

/-- Number of (sub-offset, destination) coordinate matches of the fine
coordinates spanned from `(ix, iy)`. -/
def offSum (A : PtArgs) (ix iy : ℤ) : ℕ :=
  ((List.range A.r).map (fun (xo : ℕ) =>
    ((List.range A.r).map (fun (yo : ℕ) =>
      (List.range A.dstLen).countP (dMatchB A (ix + (xo : ℤ)) (iy + (yo : ℤ))))).sum)).sum

/-- Whether any (sub-offset, destination) coordinate match exists for the
fine coordinates spanned from `(ix, iy)`. -/
def offAny (A : PtArgs) (ix iy : ℤ) : Bool :=
  (List.range A.r).any (fun (xo : ℕ) =>
    (List.range A.r).any (fun (yo : ℕ) =>
      (List.range A.dstLen).any (dMatchB A (ix + (xo : ℤ)) (iy + (yo : ℤ)))))

/-- Number of (sub-offset, destination) match events contributed by source
point `si`, counted from the initial arrays. -/
def pointMatches (A : PtArgs) (si : ℕ) : ℕ :=
  if A.srcX si < 0 then 0
  else offSum A ((A.r : ℤ) * A.srcX si) ((A.r : ℤ) * A.srcY si)

/-- Whether source point `si` is consumed by the call, computed from the
initial arrays. -/
def consumedB (A : PtArgs) (si : ℕ) : Bool :=
  decide (0 ≤ A.srcX si) && offAny A ((A.r : ℤ) * A.srcX si) ((A.r : ℤ) * A.srcY si)

/-- The valid destination points carry pairwise distinct coordinates (the
destination is a point set). -/
def dstDistinct (A : PtArgs) : Prop :=
  ∀ d1 d2 : ℕ, d1 < A.dstLen → d2 < A.dstLen → 0 ≤ A.dstX d1 → 0 ≤ A.dstX d2 →
    A.dstX d1 = A.dstX d2 → A.dstY d1 = A.dstY d2 → d1 = d2

/-- Total number of (source, sub-offset, destination) match events. -/
def matchCount (A : PtArgs) : ℕ :=
  ((List.range A.srcLen).map (pointMatches A)).sum

/-- Source point `si` finds at least one destination match. -/
def hasMatchPt (A : PtArgs) (si : ℕ) : Prop :=
  0 ≤ A.srcX si ∧ ∃ xo < A.r, ∃ yo < A.r, ∃ di < A.dstLen, matchAt A si xo yo di

instance (A : PtArgs) (si : ℕ) : Decidable (hasMatchPt A si) := by
  unfold hasMatchPt; infer_instance

/-- A repeated call on the same buffers: the mutable buffers written by the
first `Py_CombineGrids` call become the inputs of the next call. -/
def rerunArgs (A : PtArgs) : PtArgs :=
  { A with srcX := (Py_CombineGrids A).srcX
           dstWgt := (Py_CombineGrids A).dstWgt
           dstMask := (Py_CombineGrids A).dstMask
           dstVals := (Py_CombineGrids A).dstVals }

/-- Concrete PointMerger input: one source point at `(0,0)` with `r = 2`
and four destination points at the four fine coordinates
`(0,0), (0,1), (1,0), (1,1)`. -/
def fanArgs : PtArgs :=
  { srcLen := 1, dstLen := 4
    srcX := fun _ => 0, srcY := fun _ => 0, srcMask := fun _ => 1
    srcWgt := fun _ => 0
    dstX := fun k => ((k / 2 : ℕ) : ℤ), dstY := fun k => ((k % 2 : ℕ) : ℤ)
    dstMask := fun _ => 1, dstWgt := fun _ => 0
    numArrays := 1, srcVals := fun _ _ => 0, dstVals := fun _ _ => 0
    r := 2 }

/-- Concrete PointMerger input for the mask rule: one source point, one
matching destination point whose mask holds the nonzero value `5`, at
refinement factor `r = 2`. -/
def maskArgs : PtArgs :=
  { srcLen := 1, dstLen := 1
    srcX := fun _ => 0, srcY := fun _ => 0, srcMask := fun _ => 1
    srcWgt := fun _ => 0
    dstX := fun _ => 0, dstY := fun _ => 0, dstMask := fun _ => 5
    dstWgt := fun _ => 0
    numArrays := 1, srcVals := fun _ _ => 0, dstVals := fun _ _ => 0
    r := 2 }

/-- Concrete PointMerger input witnessing the weight-accumulation rule:
`srcWgt` distinguishes index 0 (value 7) from index 1 (value 100). -/
def wPtArgs : PtArgs :=
  { srcLen := 2, dstLen := 1
    srcX := fun _ => 0, srcY := fun _ => 0, srcMask := fun _ => 1
    srcWgt := fun k => if k = 0 then 7 else 100
    dstX := fun _ => 0, dstY := fun _ => 0, dstMask := fun _ => 1
    dstWgt := fun _ => 1
    numArrays := 1, srcVals := fun _ _ => 0, dstVals := fun _ _ => 0
    r := 1 }

/-- Mutable-state value used alongside `wPtArgs` in witnesses. -/
def wPtState : PtState :=
  { srcX := fun _ => 0, dstWgt := fun _ => 1, dstMask := fun _ => 5
    dstVals := fun _ _ => 0, count := 0 }

/-- C1: on every recorded (source `si`, sub-offset, destination `di`)
coordinate match, the destination weight at `di` is incremented by the
SOURCE weight array read at the destination index `di`
(`dst_wgt[di] += src_wgt[di]`, PointCombine.c line 198).  Because the
equation holds for every weight assignment whatsoever, the addend can be
neither `src_wgt[si]` nor the destination's own prior weight in general. -/
theorem combineGrids_weight_addend (A : PtArgs) (st : PtState) (si di : ℕ) (fx fy : ℤ)
    (hv : 0 ≤ A.dstX di) (hx : fx = A.dstX di) (hy : fy = A.dstY di) :
    (diScan A si fx fy [di] st).dstWgt di = st.dstWgt di + A.srcWgt di := by
  have hnot : ¬ A.dstX di < 0 := not_lt.mpr hv
  by_cases hr : A.r = 1 <;>
    simp [diScan, hnot, hx, hy, hr, matchUpdate]

/-- Witness for C1: at the concrete input the matched destination weight
becomes `1 + 7` (it is `src_wgt[0] = 7` that is added — not the source
point's own weight `src_wgt[1] = 100`, and not the prior destination
weight `1`). -/
theorem combineGrids_weight_addend_witness :
    (diScan wPtArgs 1 0 0 [0] wPtState).dstWgt 0 = 1 + 7 ∧
      wPtArgs.srcWgt 1 = 100 ∧ wPtState.dstWgt 0 = 1 := by
  refine ⟨?_, by norm_num [wPtArgs], by norm_num [wPtState]⟩
  have h := combineGrids_weight_addend wPtArgs wPtState 1 0 0 0
    (by decide) (by decide) (by decide)
  rw [h]; norm_num [wPtArgs, wPtState]

/-! ### TableInterpolator (`Interpolate`, PointCombine.c lines 590-627) -/

/-- C cast `(int)` of a floating value: truncation toward zero. -/
def truncC (x : ℚ) : ℤ := if 0 ≤ x then ⌊x⌋ else ⌈x⌉

/-- The `Interpolate` kernel.  `log10` stands for the C `log10`/`log10l`
calls (exact logarithms are not computable, so the function is a
parameter; the claims constrain it through the log-uniform-axis
hypotheses).  `m` is `num_axis_points`; `table` takes the row as `ℤ`
because the C indexes it with `axis_ind - 1`, which the clamp allows to
be `-1`.  Per query the code computes the fractional log index, truncates
and clamps it (`min`/`max`, line 613-614), then linearly interpolates
every requested column between rows `axis_ind - 1` and `axis_ind`. -/
def Interpolate (log10 : ℚ → ℚ) (m : ℕ) (axis : ℕ → ℚ) (table : ℤ → ℕ → ℚ)
    (desired : List ℚ) (columns : List ℕ) : List (List ℚ) :=
  let logtem0 := log10 (axis 0)
  let logtem9 := log10 (axis (m - 1))
  let dlogtem := (logtem9 - logtem0) / ((m : ℚ) - 1)
  desired.map (fun d =>
    let ld := log10 d
    let axis_ind : ℤ := min ((m : ℤ) - 1) (max 0 (truncC ((ld - logtem0) / dlogtem) + 1))
    let t1 := logtem0 + ((axis_ind : ℚ) - 1) * dlogtem
    let t2 := logtem0 + (axis_ind : ℚ) * dlogtem
    let tdef := t2 - t1
    columns.map (fun c =>
      let ki := table (axis_ind - 1) c
      let kip := table axis_ind c
      ki + (ld - t1) * (kip - ki) / tdef))

/-- A log-uniformly spaced axis: `log10 (axis j) = l0 + j * del` for every
row `j`, with positive log spacing `del`. -/
def logUniform (log10 : ℚ → ℚ) (m : ℕ) (axis : ℕ → ℚ) (l0 del : ℚ) : Prop :=
  0 < del ∧ ∀ j < m, log10 (axis j) = l0 + (j : ℚ) * del

/-- Concrete three-row axis `[1, 10, 100]` for the witnesses. -/
def wAxis : ℕ → ℚ := fun j => if j = 0 then 1 else if j = 1 then 10 else 100

/-- Exact base-10 logarithm values on the powers of ten the witnesses
touch. -/
def wLog : ℚ → ℚ := fun x =>
  if x = 1 then 0 else if x = 10 then 1 else if x = 100 then 2
  else if x = 1000 then 3 else 0

/-- Concrete one-column table `[[5], [50], [500]]` for the witnesses. -/
def wTable : ℤ → ℕ → ℚ := fun rw _ => if rw = 0 then 5 else if rw = 1 then 50
  else if rw = 2 then 500 else 0

/-! ### CubeMapper (`DataCubeGeneric`, PointCombine.c lines 259-584) -/

/-- Inputs of `DataCubeGeneric`: source grid left edge / dx / dimensions /
data / child mask, cube left edge / right edge / dx / dimensions / data,
and the `lastlevel` flag `ll` (a C `int`).  Cube data is indexed over `ℤ`
because the C indexes it with clamped `npy_int64` box bounds. -/
structure CubeArgs where
  g_le : Fin 3 → ℚ
  g_dx : Fin 3 → ℚ
  gdims : Fin 3 → ℕ
  g_data : ℕ → ℕ → ℕ → ℚ
  g_cm : ℕ → ℕ → ℕ → ℤ
  c_le : Fin 3 → ℚ
  c_re : Fin 3 → ℚ
  c_dx : Fin 3 → ℚ
  cdims : Fin 3 → ℕ
  c_data : ℤ → ℤ → ℤ → ℚ
  ll : ℤ

/-- The buffers `DataCubeGeneric` can mutate (grid data through
`dcReplace`, cube data through `dcRefine`) plus the visit counter. -/
structure CubeState where
  g_data : ℕ → ℕ → ℕ → ℚ
  c_data : ℤ → ℤ → ℤ → ℚ
  total : ℕ

/-- Initial mutable state of a `DataCubeGeneric` call. -/
def cubeInit (A : CubeArgs) : CubeState :=
  { g_data := A.g_data, c_data := A.c_data, total := 0 }

/-- `dcRefine` (PointCombine.c lines 261-263).  The rules are called as
`to_call(cubedata, griddata)` (line 259-260 comment, lines 534-536), so
`val1` is the cube cell and `val2` the grid cell.  `dcRefine` performs
`*val1 = *val2`: the cube cell receives the grid cell's value, the grid
value stays what it was.  As a pure update on the (cube value, grid
value) pair this is `(val2, val2)`. -/
def dcRefine (val1 val2 : ℚ) : ℚ × ℚ := (val2, val2)

/-- `dcReplace` (lines 265-267): `*val2 = *val1` — the grid cell receives
the cube cell's value, the cube value stays what it was. -/
def dcReplace (val1 val2 : ℚ) : ℚ × ℚ := (val1, val1)

/-- One combine-rule invocation of the inner loop (lines 534-537): read
cube cell `(xc,yc,zc)` and grid cell `(xg,yg,zg)`, apply the rule to the
pair, write both cells back, and bump the visit counter. -/
def applyPair (tc : ℚ → ℚ → ℚ × ℚ) (st : CubeState) (xc yc zc : ℤ)
    (xg yg zg : ℕ) : CubeState :=
  let v1 := st.c_data xc yc zc
  let v2 := st.g_data xg yg zg
  { g_data := fun a b c =>
      if a = xg ∧ b = yg ∧ c = zg then (tc v1 v2).2 else st.g_data a b c
    c_data := fun a b c =>
      if a = xc ∧ b = yc ∧ c = zc then (tc v1 v2).1 else st.c_data a b c
    total := st.total + 1 }

/-- The C index loop `for (xc = cmin; xc < cmax; xc++)` as a list. -/
def intRange (lo hi : ℤ) : List ℤ :=
  (List.range (hi - lo).toNat).map (fun k => lo + (k : ℤ))

/-- `DataCubeGeneric` (lines 509-543): iterate the source grid cells in
`(x, y, z)` nested order; per axis, skip a cell whose extent misses the
cube's extent and compute the clamped cube index box; in the `z` loop
first skip non-leaf cells when `lastlevel` is unset; then invoke the
combine rule on every cube cell of the box. -/
def DataCubeGeneric (tc : ℚ → ℚ → ℚ × ℚ) (A : CubeArgs) : CubeState :=
  (List.range (A.gdims 0)).foldl (fun stx (xg : ℕ) =>
    if A.g_le 0 + A.g_dx 0 * (xg : ℚ) > A.c_re 0 then stx
    else if A.g_le 0 + A.g_dx 0 * ((xg : ℚ) + 1) < A.c_le 0 then stx
    else
      let cminx : ℤ := max ⌊(A.g_le 0 + A.g_dx 0 * (xg : ℚ) - A.c_le 0) / A.c_dx 0⌋ 0
      let cmaxx : ℤ :=
        min ⌈(A.g_le 0 + A.g_dx 0 * ((xg : ℚ) + 1) - A.c_le 0) / A.c_dx 0⌉ ((A.cdims 0 : ℤ))
      (List.range (A.gdims 1)).foldl (fun sty (yg : ℕ) =>
        if A.g_le 1 + A.g_dx 1 * (yg : ℚ) > A.c_re 1 then sty
        else if A.g_le 1 + A.g_dx 1 * ((yg : ℚ) + 1) < A.c_le 1 then sty
        else
          let cminy : ℤ := max ⌊(A.g_le 1 + A.g_dx 1 * (yg : ℚ) - A.c_le 1) / A.c_dx 1⌋ 0
          let cmaxy : ℤ :=
            min ⌈(A.g_le 1 + A.g_dx 1 * ((yg : ℚ) + 1) - A.c_le 1) / A.c_dx 1⌉ ((A.cdims 1 : ℤ))
          (List.range (A.gdims 2)).foldl (fun stz (zg : ℕ) =>
            if A.ll = 0 ∧ A.g_cm xg yg zg = 0 then stz
            else if A.g_le 2 + A.g_dx 2 * (zg : ℚ) > A.c_re 2 then stz
            else if A.g_le 2 + A.g_dx 2 * ((zg : ℚ) + 1) < A.c_le 2 then stz
            else
              let cminz : ℤ := max ⌊(A.g_le 2 + A.g_dx 2 * (zg : ℚ) - A.c_le 2) / A.c_dx 2⌋ 0
              let cmaxz : ℤ :=
                min ⌈(A.g_le 2 + A.g_dx 2 * ((zg : ℚ) + 1) - A.c_le 2) / A.c_dx 2⌉ ((A.cdims 2 : ℤ))
              (intRange cminx cmaxx).foldl (fun s3 xc =>
                (intRange cminy cmaxy).foldl (fun s4 yc =>
                  (intRange cminz cmaxz).foldl (fun s5 zc =>
                    applyPair tc s5 xc yc zc xg yg zg) s4) s3) stz) sty) stx)
    (cubeInit A)

/-- `Py_DataCubeRefine` (lines 572-577). -/
def Py_DataCubeRefine (A : CubeArgs) : CubeState := DataCubeGeneric dcRefine A

/-- `Py_DataCubeReplace` (lines 579-584). -/
def Py_DataCubeReplace (A : CubeArgs) : CubeState := DataCubeGeneric dcReplace A

/-- A second call on the same buffers: the data written by a first call
becomes the input of the next one. -/
def cubeRerun (A : CubeArgs) (st : CubeState) : CubeArgs :=
  { A with g_data := st.g_data, c_data := st.c_data }

/-- One whole-cell step of the coincident-grids special case: when grid
and cube are coincident, the index box of grid cell `q` is the singleton
`{q}`, so the iteration either skips `q` (non-leaf and `ll = 0`) or
applies the rule once to the pair (cube cell `q`, grid cell `q`). -/
def cellStep (tc : ℚ → ℚ → ℚ × ℚ) (A : CubeArgs) (st : CubeState)
    (q : ℕ × ℕ × ℕ) : CubeState :=
  if A.ll = 0 ∧ A.g_cm q.1 q.2.1 q.2.2 = 0 then st
  else applyPair tc st (q.1 : ℤ) (q.2.1 : ℤ) (q.2.2 : ℤ) q.1 q.2.1 q.2.2

/-- All grid cells in the C iteration order. -/
def allCells (d0 d1 d2 : ℕ) : List (ℕ × ℕ × ℕ) :=
  (List.range d0).flatMap (fun x =>
    (List.range d1).flatMap (fun y =>
      (List.range d2).map (fun z => (x, y, z))))

/-- A concrete coincident 1×1×1 setup: grid value `3`, cube value `7`,
leaf cell, `ll = 0`. -/
def cexCube : CubeArgs :=
  { g_le := fun _ => 0, g_dx := fun _ => 1, gdims := fun _ => 1
    g_data := fun _ _ _ => 3, g_cm := fun _ _ _ => 1
    c_le := fun _ => 0, c_re := fun _ => 1, c_dx := fun _ => 1
    cdims := fun _ => 1, c_data := fun _ _ _ => 7, ll := 0 }

/-! ### HistogramAccumulator (`Py_Bin2DProfile`, PointCombine.c lines 271-383) -/

/-- The `k`-th little-endian byte of the two's-complement 64-bit
representation of `v`, read back as a signed `char` (the type of
`PyArrayObject.data` dereferences). -/
def int64Byte (v : ℤ) (k : ℕ) : ℤ :=
  let b : ℕ := (v % 2 ^ 64).toNat / 2 ^ (8 * k) % 256
  if b < 128 then (b : ℤ) else (b : ℤ) - 256

/-- `xs->data[n]` for an `npy_int64` array `xs`: `data` is a `char`
pointer, so index `n` addresses the `n`-th BYTE of the buffer — byte
`n % 8` of element `n / 8` — not the `n`-th element. -/
def bufByte (xs : List ℤ) (n : ℕ) : ℤ :=
  int64Byte (xs.getD (n / 8) 0) (n % 8)

/-- Inputs of `Py_Bin2DProfile`: bin index arrays as `int64` element
lists (their raw bytes are derived by `bufByte`), the weight/value
`float64` buffers as opaque byte functions `wByte`/`bByte` (the code only
ever reads their raw bytes: `wsource->data[n]` is a `char` read) with
their element counts, the three 2D accumulators with their shapes. -/
structure BinRaw where
  binsX : List ℤ
  binsY : List ℤ
  wN : ℕ
  bN : ℕ
  wByte : ℕ → ℤ
  bByte : ℕ → ℤ
  wrRows : ℕ
  wrCols : ℕ
  brRows : ℕ
  brCols : ℕ
  usRows : ℕ
  usCols : ℕ
  wres : ℤ → ℤ → ℚ
  bres : ℤ → ℤ → ℚ
  used : ℤ → ℤ → ℚ

/-- The three accumulators `Py_Bin2DProfile` mutates. -/
structure BinState where
  wres : ℤ → ℤ → ℚ
  bres : ℤ → ℤ → ℚ
  used : ℤ → ℤ → ℚ

/-- Initial accumulator state of a `Py_Bin2DProfile` call. -/
def binInit (b : BinRaw) : BinState :=
  { wres := b.wres, bres := b.bres, used := b.used }

/-- The accumulation loop of `Py_Bin2DProfile` (lines 352-360): for each
sample `n` it computes `i = bins_x->data[n]`, `j = bins_y->data[n]`
(BYTE reads — `data` is `char*`), adds `wsource->data[n]` (a byte of the
float64 buffer, promoted to double) into `wresult[i][j]`, adds
`wsource->data[n] * bsource->data[n]` into `bresult[i][j]`, and sets
`used[i][j] = 1.0`. -/
def Py_Bin2DProfile_loop (b : BinRaw) : BinState :=
  (List.range b.binsX.length).foldl (fun st n =>
    let i : ℤ := bufByte b.binsX n
    let j : ℤ := bufByte b.binsY n
    { wres := fun a c =>
        if a = i ∧ c = j then st.wres a c + (b.wByte n : ℚ) else st.wres a c
      bres := fun a c =>
        if a = i ∧ c = j then st.bres a c + (b.wByte n : ℚ) * (b.bByte n : ℚ)
        else st.bres a c
      used := fun a c => if a = i ∧ c = j then 1 else st.used a c }) (binInit b)

/-- Ordered validation of `Py_Bin2DProfile` (lines 284-347). -/
def binCheck (b : BinRaw) : Option String :=
  if b.binsY.length ≠ b.binsX.length then
    some "Bin2DProfile: One dimension required for bins_y, same size as bins_x."
  else if b.wN ≠ b.binsX.length then
    some "Bin2DProfile: One dimension required for wsource, same size as bins_x."
  else if b.bN ≠ b.binsX.length then
    some "Bin2DProfile: One dimension required for bsource, same size as bins_x."
  else if b.brRows * b.brCols ≠ b.wrRows * b.wrCols ∨ b.brRows ≠ b.wrRows then
    some "Bin2DProfile: Two dimensions required for bresult, same shape as wresult."
  else if b.usRows * b.usCols ≠ b.wrRows * b.wrCols ∨ b.usRows ≠ b.wrRows then
    some "Bin2DProfile: Two dimensions required for used, same shape as wresult."
  else none

/-- Whole `Py_Bin2DProfile` call: all validation precedes the loop; on a
failed check the call returns the error and the untouched accumulators
(`goto _fail` fires before any write); on success it runs the loop and
returns the constant `1`. -/
def Py_Bin2DProfile_call (b : BinRaw) : Option String × BinState × Option ℤ :=
  match binCheck b with
  | some e => (some e, binInit b, none)
  | none => (none, Py_Bin2DProfile_loop b, some 1)

/-- Concrete histogram input exposing the byte-indexing defect:
`bins_x = [0, 1]`, `bins_y = [0, 0]`, two samples, 2×1 zeroed
accumulators, nonzero weight bytes. -/
def bugBin : BinRaw :=
  { binsX := [0, 1], binsY := [0, 0], wN := 2, bN := 2
    wByte := fun _ => 1, bByte := fun _ => 1
    wrRows := 2, wrCols := 1, brRows := 2, brCols := 1, usRows := 2, usCols := 1
    wres := fun _ _ => 0, bres := fun _ _ => 0, used := fun _ _ => 0 }

/-- Histogram input failing the `bins_y` size check. -/
def badBin : BinRaw := { bugBin with binsY := [0] }

/-! ### Validation wrappers of the other kernels (error paths) -/

/-- Sizes of the remaining `Py_CombineGrids` arguments, checked against
`src_x`'s and `dst_x`'s sizes (carried in `PtArgs` itself) and against
the source channel count `numArrays`. -/
structure CGShapes where
  srcYLen : ℕ
  srcMaskLen : ℕ
  srcWgtLen : ℕ
  dstYLen : ℕ
  dstMaskLen : ℕ
  dstWgtLen : ℕ
  numDstVals : ℕ

/-- Ordered validation of `Py_CombineGrids` (lines 76-143). -/
def cgCheck (A : PtArgs) (S : CGShapes) : Option String :=
  if S.srcYLen ≠ A.srcLen then
    some "CombineGrids: src_x and src_y must be the same shape."
  else if S.srcMaskLen ≠ A.srcLen then
    some "CombineGrids: src_x and src_mask must be the same shape."
  else if S.srcWgtLen ≠ A.srcLen then
    some "CombineGrids: src_x and src_wgt must be the same shape."
  else if S.dstYLen ≠ A.dstLen then
    some "CombineGrids: dst_x and dst_y must be the same shape."
  else if S.dstMaskLen ≠ A.dstLen then
    some "CombineGrids: dst_x and dst_mask must be the same shape."
  else if S.dstWgtLen ≠ A.dstLen then
    some "CombineGrids: dst_x and dst_wgt must be the same shape."
  else if A.numArrays < 1 then
    some "CombineGrids: You have to pass me lists of things."
  else if S.numDstVals ≠ A.numArrays then
    some "CombineGrids: Sorry, but your lists of values are different lengths."
  else none

/-- Whole `Py_CombineGrids` call: every check precedes the merge loops
(lines 76-143 before 185-212), so a failed check returns the error with
the caller's buffers untouched. -/
def Py_CombineGrids_call (A : PtArgs) (S : CGShapes) : Option String × PtState :=
  match cgCheck A S with
  | some e => (some e, initState A)
  | none => (none, Py_CombineGrids A)

/-- Vector lengths and array ranks of the `DataCubeGeneric` arguments. -/
structure CubeShapes where
  gleLen : ℕ
  gdxLen : ℕ
  gdataNd : ℕ
  gcmNd : ℕ
  cleLen : ℕ
  creLen : ℕ
  cdxLen : ℕ
  cdataNd : ℕ

/-- Ordered validation of `DataCubeGeneric` (lines 425-505). -/
def cubeCheck (S : CubeShapes) : Option String :=
  if S.gleLen ≠ 3 then
    some "CombineGrids: Three values, one dimension required for g_le."
  else if S.gdxLen ≠ 3 then
    some "CombineGrids: Three values, one dimension required for g_dx."
  else if S.gdataNd ≠ 3 then
    some "CombineGrids: Three dimensions required for g_data."
  else if S.gcmNd ≠ 3 then
    some "CombineGrids: Three dimensions required for g_cm."
  else if S.cleLen ≠ 3 then
    some "CombineGrids: Three values, one dimension required for c_le."
  else if S.creLen ≠ 3 then
    some "CombineGrids: Three values, one dimension required for c_re."
  else if S.cdxLen ≠ 3 then
    some "CombineGrids: Three values, one dimension required for c_dx."
  else if S.cdataNd ≠ 3 then
    some "CombineGrids: Three dimensions required for c_data."
  else none

/-- Whole `DataCubeGeneric` call: all checks precede the mapping loop. -/
def DataCubeGeneric_call (tc : ℚ → ℚ → ℚ × ℚ) (A : CubeArgs) (S : CubeShapes) :
    Option String × CubeState :=
  match cubeCheck S with
  | some e => (some e, cubeInit A)
  | none => (none, DataCubeGeneric tc A)

/-- The column-count check of `Py_Interpolate` (lines 653-658): the
requested column count against the output buffer's second dimension. -/
structure InterpShapes where
  columnsLen : ℕ
  outCols : ℕ

/-- Validation of `Py_Interpolate`. -/
def interpCheck (S : InterpShapes) : Option String :=
  if S.columnsLen ≠ S.outCols then
    some "Interpolate: number of columns requested must match number of columns in output buffer."
  else none

/-- Whole `Py_Interpolate` call: the check precedes the `Interpolate`
kernel, so on failure no output is produced. -/
def Py_Interpolate_call (log10 : ℚ → ℚ) (m : ℕ) (axis : ℕ → ℚ)
    (table : ℤ → ℕ → ℚ) (desired : List ℚ) (columns : List ℕ)
    (S : InterpShapes) : Option String × Option (List (List ℚ)) :=
  match interpCheck S with
  | some e => (some e, none)
  | none => (none, some (Interpolate log10 m axis table desired columns))

/-- `Py_CombineGrids` companion shapes that fail the first size check for
`wPtArgs` (whose `srcLen` is 2). -/
def badShapesCG : CGShapes :=
  { srcYLen := 5, srcMaskLen := 2, srcWgtLen := 2
    dstYLen := 1, dstMaskLen := 1, dstWgtLen := 1, numDstVals := 1 }

/-- Cube shapes failing the `g_le` length check. -/
def badCubeShapes : CubeShapes :=
  { gleLen := 2, gdxLen := 3, gdataNd := 3, gcmNd := 3
    cleLen := 3, creLen := 3, cdxLen := 3, cdataNd := 3 }

/-- Interpolation shapes failing the column-count check. -/
def badInterpShapes : InterpShapes := { columnsLen := 1, outCols := 2 }

/-! ### PointMerger: loop-characterisation lemmas -/

theorem dMatchB_eq_true {A : PtArgs} {fx fy : ℤ} {di : ℕ} (h : dMatch A fx fy di) :
    dMatchB A fx fy di = true := by
  simp [dMatchB, h]

theorem dMatchB_eq_false {A : PtArgs} {fx fy : ℤ} {di : ℕ} (h : ¬ dMatch A fx fy di) :
    dMatchB A fx fy di = false := by
  simp [dMatchB, h]

theorem diScan_count (A : PtArgs) (si : ℕ) (fx fy : ℤ) (l : List ℕ) :
    ∀ st : PtState,
      (A.r = 1 → l.countP (dMatchB A fx fy) ≤ 1) →
      (diScan A si fx fy l st).count = st.count + l.countP (dMatchB A fx fy) := by
  induction l with
  | nil => intro st _; simp [diScan]
  | cons di rest ih =>
    intro st h
    by_cases hneg : A.dstX di < 0
    · have hp : ¬ dMatch A fx fy di := fun hm => absurd hm.1 (not_le.mpr hneg)
      have h' : A.r = 1 → rest.countP (dMatchB A fx fy) ≤ 1 := by
        intro h1
        have h2 := h h1
        simpa [List.countP_cons, dMatchB_eq_false hp] using h2
      simp [diScan, hneg, List.countP_cons, dMatchB_eq_false hp, ih st h']
    · by_cases hm : fx = A.dstX di ∧ fy = A.dstY di
      · have hpd : dMatch A fx fy di := ⟨not_lt.mp hneg, hm.1, hm.2⟩
        by_cases hr : A.r = 1
        · have h2 := h hr
          simp only [List.countP_cons, dMatchB_eq_true hpd, if_true] at h2
          have hz : rest.countP (dMatchB A fx fy) = 0 := by omega
          simp only [diScan]
          rw [if_neg hneg, if_pos hm, if_pos hr, List.countP_cons,
            dMatchB_eq_true hpd, hz]
          simp [matchUpdate]
        · have h3 := ih (matchUpdate A si di st) (fun h1 => absurd h1 hr)
          simp only [diScan]
          rw [if_neg hneg, if_pos hm, if_neg hr, h3, List.countP_cons,
            dMatchB_eq_true hpd]
          simp only [matchUpdate, if_true]
          omega
      · have hpd : ¬ dMatch A fx fy di := fun hd => hm ⟨hd.2.1, hd.2.2⟩
        simp only [diScan]
        rw [if_neg hneg, if_neg hm, List.countP_cons, dMatchB_eq_false hpd]
        simp only [Bool.false_eq_true, if_false, add_zero]
        exact ih st
          (fun h1 => by simpa [List.countP_cons, dMatchB_eq_false hpd] using h h1)

theorem diScan_srcX_self (A : PtArgs) (si : ℕ) (fx fy : ℤ) (l : List ℕ) :
    ∀ st : PtState,
      (diScan A si fx fy l st).srcX si =
        (if l.any (dMatchB A fx fy) then -1 else st.srcX si) := by
  induction l with
  | nil => intro st; simp [diScan]
  | cons di rest ih =>
    intro st
    by_cases hneg : A.dstX di < 0
    · have hp : ¬ dMatch A fx fy di := fun hm => absurd hm.1 (not_le.mpr hneg)
      simp [diScan, hneg, List.any_cons, dMatchB_eq_false hp, ih st]
    · by_cases hm : fx = A.dstX di ∧ fy = A.dstY di
      · have hpd : dMatch A fx fy di := ⟨not_lt.mp hneg, hm.1, hm.2⟩
        by_cases hr : A.r = 1
        · simp only [diScan]
          rw [if_neg hneg, if_pos hm, if_pos hr, List.any_cons, dMatchB_eq_true hpd]
          simp [matchUpdate]
        · simp only [diScan]
          rw [if_neg hneg, if_pos hm, if_neg hr, ih (matchUpdate A si di st),
            List.any_cons, dMatchB_eq_true hpd]
          simp [matchUpdate]
      · have hpd : ¬ dMatch A fx fy di := fun hd => hm ⟨hd.2.1, hd.2.2⟩
        simp only [diScan]
        rw [if_neg hneg, if_neg hm, List.any_cons, dMatchB_eq_false hpd]
        simp only [Bool.false_or]
        exact ih st

theorem diScan_srcX_ne (A : PtArgs) (si : ℕ) (fx fy : ℤ) (k : ℕ) (hk : k ≠ si)
    (l : List ℕ) : ∀ st : PtState, (diScan A si fx fy l st).srcX k = st.srcX k := by
  induction l with
  | nil => intro st; simp [diScan]
  | cons di rest ih =>
    intro st
    by_cases hneg : A.dstX di < 0
    · simp only [diScan]; rw [if_pos hneg]; exact ih st
    · by_cases hm : fx = A.dstX di ∧ fy = A.dstY di
      · by_cases hr : A.r = 1
        · simp only [diScan]
          rw [if_neg hneg, if_pos hm, if_pos hr]
          simp [matchUpdate, hk]
        · simp only [diScan]
          rw [if_neg hneg, if_pos hm, if_neg hr, ih (matchUpdate A si di st)]
          simp [matchUpdate, hk]
      · simp only [diScan]; rw [if_neg hneg, if_neg hm]; exact ih st

theorem foldl_count (f : PtState → ℕ → PtState) (g : ℕ → ℕ) (l : List ℕ)
    (h : ∀ st a, a ∈ l → (f st a).count = st.count + g a) :
    ∀ st : PtState, (l.foldl f st).count = st.count + (l.map g).sum := by
  induction l with
  | nil => intro st; simp
  | cons a rest ih =>
    intro st
    have h1 := ih (fun st b hb => h st b (List.mem_cons_of_mem a hb)) (f st a)
    simp only [List.foldl_cons, List.map_cons, List.sum_cons]
    rw [h1, h st a (List.mem_cons_self a rest)]
    omega

theorem foldl_srcX_flag (si : ℕ) (f : PtState → ℕ → PtState) (b : ℕ → Bool)
    (l : List ℕ)
    (h : ∀ st a, a ∈ l → (f st a).srcX si = (if b a then -1 else st.srcX si)) :
    ∀ st : PtState,
      (l.foldl f st).srcX si = (if l.any b then -1 else st.srcX si) := by
  induction l with
  | nil => intro st; simp
  | cons a rest ih =>
    intro st
    have h1 := ih (fun st c hc => h st c (List.mem_cons_of_mem a hc)) (f st a)
    simp only [List.foldl_cons, List.any_cons]
    rw [h1, h st a (List.mem_cons_self a rest)]
    by_cases hba : b a = true <;> by_cases hrest : rest.any b = true <;>
      simp [hba, hrest]

theorem offLoop_count (A : PtArgs) (si : ℕ) (ix iy : ℤ) (st : PtState)
    (h : A.r = 1 → ∀ fx fy : ℤ, (List.range A.dstLen).countP (dMatchB A fx fy) ≤ 1) :
    (offLoop A si ix iy st).count = st.count + offSum A ix iy := by
  unfold offLoop offSum
  refine foldl_count _ _ _ ?_ st
  intro st1 xo _
  refine foldl_count _ _ _ ?_ st1
  intro st2 yo _
  exact diScan_count A si (ix + (xo : ℤ)) (iy + (yo : ℤ)) _ st2
    (fun h1 => h h1 _ _)

theorem offLoop_srcX_self (A : PtArgs) (si : ℕ) (ix iy : ℤ) (st : PtState) :
    (offLoop A si ix iy st).srcX si = (if offAny A ix iy then -1 else st.srcX si) := by
  unfold offLoop offAny
  refine foldl_srcX_flag si _ _ _ ?_ st
  intro st1 xo _
  refine foldl_srcX_flag si _ _ _ ?_ st1
  intro st2 yo _
  exact diScan_srcX_self A si (ix + (xo : ℤ)) (iy + (yo : ℤ)) _ st2

theorem foldl_srcX_pres (k : ℕ) (f : PtState → ℕ → PtState) (l : List ℕ)
    (h : ∀ st a, a ∈ l → (f st a).srcX k = st.srcX k) :
    ∀ st : PtState, (l.foldl f st).srcX k = st.srcX k := by
  induction l with
  | nil => intro st; simp
  | cons a rest ih =>
    intro st
    simp only [List.foldl_cons]
    rw [ih (fun st c hc => h st c (List.mem_cons_of_mem a hc)),
      h st a (List.mem_cons_self a rest)]

theorem offLoop_srcX_ne (A : PtArgs) (si : ℕ) (ix iy : ℤ) (k : ℕ) (hk : k ≠ si)
    (st : PtState) : (offLoop A si ix iy st).srcX k = st.srcX k := by
  unfold offLoop
  refine foldl_srcX_pres k _ _ ?_ st
  intro st1 xo _
  refine foldl_srcX_pres k _ _ ?_ st1
  intro st2 yo _
  exact diScan_srcX_ne A si _ _ k hk _ st2

theorem countP_le_one_of_unique (p : ℕ → Bool) : ∀ l : List ℕ, l.Nodup →
    (∀ a ∈ l, ∀ b ∈ l, p a = true → p b = true → a = b) → l.countP p ≤ 1 := by
  intro l
  induction l with
  | nil => intro _ _; simp
  | cons a rest ih =>
    intro hl h
    rw [List.countP_cons]
    by_cases hpa : p a = true
    · have hz : rest.countP p = 0 := by
        rw [List.countP_eq_zero]
        intro b hb hpb
        have hab := h a (List.mem_cons_self a rest) b (List.mem_cons_of_mem a hb) hpa hpb
        exact (List.nodup_cons.mp hl).1 (hab ▸ hb)
      simp [hpa, hz]
    · have := ih (List.nodup_cons.mp hl).2
        (fun c hc d hd hc1 hd1 =>
          h c (List.mem_cons_of_mem a hc) d (List.mem_cons_of_mem a hd) hc1 hd1)
      simp [hpa]
      omega

theorem dstDistinct_countP (A : PtArgs) (hd : dstDistinct A) (fx fy : ℤ) :
    (List.range A.dstLen).countP (dMatchB A fx fy) ≤ 1 := by
  refine countP_le_one_of_unique _ _ (List.nodup_range _) ?_
  intro a ha b hb hpa hpb
  rw [List.mem_range] at ha hb
  have hma : dMatch A fx fy a := by simpa [dMatchB] using hpa
  have hmb : dMatch A fx fy b := by simpa [dMatchB] using hpb
  exact hd a b ha hb hma.1 hmb.1 (hma.2.1 ▸ hmb.2.1) (hma.2.2 ▸ hmb.2.2)

theorem step_srcX_ne (A : PtArgs) (st : PtState) (s k : ℕ) (hk : k ≠ s) :
    (step A st s).srcX k = st.srcX k := by
  unfold step
  by_cases hg : st.srcX s < 0
  · rw [if_pos hg]
  · rw [if_neg hg, offLoop_srcX_ne A s _ _ k hk st]

theorem foldl_step_srcX_notmem (A : PtArgs) : ∀ (l : List ℕ) (st : PtState) (k : ℕ),
    k ∉ l → (l.foldl (step A) st).srcX k = st.srcX k := by
  intro l
  induction l with
  | nil => intro st k _; simp
  | cons s rest ih =>
    intro st k hk
    rw [List.foldl_cons, ih (step A st s) k (fun hm => hk (List.mem_cons_of_mem s hm)),
      step_srcX_ne A st s k (fun he => hk (he ▸ List.mem_cons_self s rest))]

theorem foldl_step_count (A : PtArgs) (hsep : A.r = 1 → dstDistinct A) :
    ∀ (l : List ℕ) (st : PtState), l.Nodup → (∀ s ∈ l, st.srcX s = A.srcX s) →
      (l.foldl (step A) st).count = st.count + (l.map (pointMatches A)).sum := by
  intro l
  induction l with
  | nil => intro st _ _; simp
  | cons s rest ih =>
    intro st hnd hst
    have hs := hst s (List.mem_cons_self s rest)
    have hsrest : s ∉ rest := (List.nodup_cons.mp hnd).1
    have hpre : ∀ u ∈ rest, (step A st s).srcX u = A.srcX u := by
      intro u hu
      rw [step_srcX_ne A st s u (fun he => hsrest (he ▸ hu))]
      exact hst u (List.mem_cons_of_mem s hu)
    simp only [List.foldl_cons, List.map_cons, List.sum_cons]
    rw [ih (step A st s) (List.nodup_cons.mp hnd).2 hpre]
    unfold step
    rw [hs]
    by_cases hg : A.srcX s < 0
    · rw [if_pos hg]
      unfold pointMatches
      rw [if_pos hg]
      omega
    · rw [if_neg hg,
        offLoop_count A s _ _ st (fun h1 fx fy => dstDistinct_countP A (hsep h1) fx fy)]
      unfold pointMatches
      rw [if_neg hg]
      omega

theorem foldl_step_srcX (A : PtArgs) :
    ∀ (l : List ℕ) (st : PtState), l.Nodup → (∀ s ∈ l, st.srcX s = A.srcX s) →
      ∀ k ∈ l, (l.foldl (step A) st).srcX k = (if consumedB A k then -1 else A.srcX k) := by
  intro l
  induction l with
  | nil => intro st _ _ k hk; simp at hk
  | cons s rest ih =>
    intro st hnd hst k hk
    simp only [List.foldl_cons]
    rcases List.mem_cons.mp hk with he | hm
    · subst he
      have hs := hst k (List.mem_cons_self k rest)
      have hkrest : k ∉ rest := (List.nodup_cons.mp hnd).1
      rw [foldl_step_srcX_notmem A rest (step A st k) k hkrest]
      unfold step
      rw [hs]
      by_cases hg : A.srcX k < 0
      · rw [if_pos hg]
        unfold consumedB
        have hb : decide (0 ≤ A.srcX k) = false := by simp [not_le.mpr hg]
        rw [hb, Bool.false_and]
        simp [hs]
      · rw [if_neg hg, offLoop_srcX_self A k _ _ st, hs]
        unfold consumedB
        have hb : decide (0 ≤ A.srcX k) = true := by simp [not_lt.mp hg]
        rw [hb, Bool.true_and]
    · have hsrest : s ∉ rest := (List.nodup_cons.mp hnd).1
      have hpre : ∀ u ∈ rest, (step A st s).srcX u = A.srcX u := by
        intro u hu
        rw [step_srcX_ne A st s u (fun he => hsrest (he ▸ hu))]
        exact hst u (List.mem_cons_of_mem s hu)
      exact ih (step A st s) (List.nodup_cons.mp hnd).2 hpre k hm

theorem hasMatchPt_iff_consumedB (A : PtArgs) (si : ℕ) :
    hasMatchPt A si ↔ consumedB A si = true := by
  unfold hasMatchPt consumedB offAny matchAt dMatchB
  simp [List.any_eq_true, List.mem_range, decide_eq_true_eq]

/-- C3 counterexample: at refinement factor `r = 2` a recorded match does
NOT preserve the destination mask value: `maskArgs` holds destination mask
`5`, a single match is recorded, and the mask comes out as `1` (the C
logical operators normalise it), not `5`. -/
theorem combineGrids_mask_counterexample :
    (Py_CombineGrids maskArgs).dstMask 0 = 1 ∧ maskArgs.dstMask 0 = 5 ∧
      (Py_CombineGrids maskArgs).count = 1 ∧ maskArgs.r ≠ 1 := by
  refine ⟨?_, by decide, ?_, by decide⟩ <;> decide

/-- C3 (amended): on every recorded match the destination mask is set to
`(src.mask[si] AND dst.mask[di]) OR (r != 1 AND dst.mask[di])` with C
logical semantics, so the stored value is `0` or `1`: with `r = 1` the
masks combine by logical AND, and with `r != 1` the destination mask is
replaced by its own truth value (`1` if it was nonzero, `0` if zero) —
preserved verbatim only when masks are already 0/1-valued
(PointCombine.c lines 199-200). -/
theorem combineGrids_mask_rule (A : PtArgs) (st : PtState) (si di : ℕ) (fx fy : ℤ)
    (hv : 0 ≤ A.dstX di) (hx : fx = A.dstX di) (hy : fy = A.dstY di) :
    (diScan A si fx fy [di] st).dstMask di =
      (if (A.srcMask si ≠ 0 ∧ st.dstMask di ≠ 0) ∨ (A.r ≠ 1 ∧ st.dstMask di ≠ 0)
       then 1 else 0) ∧
    (A.r = 1 →
      (diScan A si fx fy [di] st).dstMask di =
        (if A.srcMask si ≠ 0 ∧ st.dstMask di ≠ 0 then 1 else 0)) ∧
    (A.r ≠ 1 →
      (diScan A si fx fy [di] st).dstMask di =
        (if st.dstMask di ≠ 0 then 1 else 0)) := by
  have hnot : ¬ A.dstX di < 0 := not_lt.mpr hv
  refine ⟨?_, fun hr => ?_, fun hr => ?_⟩
  · by_cases hr : A.r = 1 <;> simp [diScan, hnot, hx, hy, hr, matchUpdate]
  · simp [diScan, hnot, hx, hy, hr, matchUpdate]
  · by_cases hd : st.dstMask di ≠ 0 <;>
      simp [diScan, hnot, hx, hy, hr, matchUpdate, hd]

/-- Witness for C3 (amended): concrete same-level (`r = 1`) match where the
source mask is `1` and the destination mask is the nonzero value `5`; the
combined mask is `1`. -/
theorem combineGrids_mask_rule_witness :
    (diScan wPtArgs 1 0 0 [0] wPtState).dstMask 0 = 1 ∧ wPtState.dstMask 0 = 5 := by
  have h := combineGrids_mask_rule wPtArgs wPtState 1 0 0 0
    (by decide) (by decide) (by decide)
  exact ⟨by rw [h.1]; decide, by decide⟩

/-- C4: the value returned by `Py_CombineGrids` is the number of
(source, sub-offset, destination) match events — counted per event, not
per source point.  The hypothesis is needed only for same-level merges
(`r = 1`), where the C `break` makes a duplicated destination coordinate
match only once; for every `r != 1` the theorem is unconditional
(PointCombine.c lines 185-212, 236). -/
theorem combineGrids_count_events (A : PtArgs) (hsep : A.r = 1 → dstDistinct A) :
    (Py_CombineGrids A).count = matchCount A := by
  unfold Py_CombineGrids matchCount
  rw [foldl_step_count A hsep (List.range A.srcLen) (initState A)
    (List.nodup_range _) (fun s _ => rfl)]
  simp [initState]

/-- Witness for C4: `fanArgs` has a single source point at refinement
factor `r = 2` and four destination points at its four fine coordinates;
the returned count is `4` — one per (sub-offset, destination) pair, not
one per source point. -/
theorem combineGrids_count_events_witness :
    (Py_CombineGrids fanArgs).count = matchCount fanArgs ∧ matchCount fanArgs = 4 ∧
      fanArgs.srcLen = 1 := by
  exact ⟨combineGrids_count_events fanArgs (fun h1 => absurd h1 (by decide)),
    by decide, by decide⟩

/-- C5 counterexample: in `fanArgs` the single source point is marked
`-1` at its first match, yet the call records four matches for it — so
the marking does NOT stop further matching for that source point within
the call. -/
theorem combineGrids_sentinel_counterexample :
    fanArgs.srcLen = 1 ∧ (Py_CombineGrids fanArgs).count = 4 ∧
      1 < (Py_CombineGrids fanArgs).count ∧ (Py_CombineGrids fanArgs).srcX 0 = -1 := by
  refine ⟨by decide, ?_, ?_, ?_⟩ <;> decide

/-- C5 (amended): a source point that finds at least one match ends the
call with `src_x = -1`, a source point with no match keeps its `x`
unchanged, and the `-1` marking prevents the point from matching again in
a repeated call on the same buffers; within the call itself the point's
own remaining sub-offset/destination scans continue (see the
counterexample), because `src_x[si] < 0` is only tested when the outer
loop first reaches `si` (PointCombine.c lines 186, 203). -/
theorem combineGrids_sentinel (A : PtArgs) (si : ℕ) (hsi : si < A.srcLen) :
    (Py_CombineGrids A).srcX si = (if hasMatchPt A si then -1 else A.srcX si) ∧
      (hasMatchPt A si → ¬ hasMatchPt (rerunArgs A) si) := by
  have h1 : (Py_CombineGrids A).srcX si = (if consumedB A si then -1 else A.srcX si) := by
    unfold Py_CombineGrids
    exact foldl_step_srcX A (List.range A.srcLen) (initState A) (List.nodup_range _)
      (fun s _ => rfl) si (List.mem_range.mpr hsi)
  have h2 : (Py_CombineGrids A).srcX si = (if hasMatchPt A si then -1 else A.srcX si) := by
    rw [h1]
    by_cases hc : hasMatchPt A si
    · rw [if_pos ((hasMatchPt_iff_consumedB A si).mp hc), if_pos hc]
    · rw [if_neg (fun hb => hc ((hasMatchPt_iff_consumedB A si).mpr hb)), if_neg hc]
  refine ⟨h2, fun hm hcon => ?_⟩
  have hneg : (rerunArgs A).srcX si = -1 := by
    show (Py_CombineGrids A).srcX si = -1
    rw [h2, if_pos hm]
  have h0 := hcon.1
  rw [hneg] at h0
  omega

/-- Witness for C5 (amended): at `fanArgs` the single source point has a
match, ends with `x = -1`, and cannot match again in the repeated call. -/
theorem combineGrids_sentinel_witness :
    ((Py_CombineGrids fanArgs).srcX 0 =
        (if hasMatchPt fanArgs 0 then -1 else fanArgs.srcX 0)) ∧
      (hasMatchPt fanArgs 0 → ¬ hasMatchPt (rerunArgs fanArgs) 0) ∧
      hasMatchPt fanArgs 0 := by
  have h := combineGrids_sentinel fanArgs 0 (by decide)
  exact ⟨h.1, h.2, by decide⟩

/-! ### TableInterpolator theorems -/

/-- C6: on a strictly positive, log-uniformly spaced axis of length
`m >= 2`, querying `desired = axis[i]` for `i` in `[0, m-1)` writes
exactly `table[i][col]` for every requested column: the clamped bracket
index is `i + 1`, the interpolation fraction is exactly `0`, and the
lower-bracket row `i` is returned (PointCombine.c lines 610-625). -/
theorem interpolate_node_exact (log10 : ℚ → ℚ) (m : ℕ) (axis : ℕ → ℚ)
    (table : ℤ → ℕ → ℚ) (l0 del : ℚ) (hm : 2 ≤ m)
    (hu : logUniform log10 m axis l0 del) (i : ℕ) (hi : i + 1 < m)
    (columns : List ℕ) :
    Interpolate log10 m axis table [axis i] columns =
      [columns.map (fun c => table (i : ℤ) c)] := by
  obtain ⟨hdel, hax⟩ := hu
  have hdne : del ≠ 0 := ne_of_gt hdel
  have hm1 : ((m : ℚ) - 1) ≠ 0 := by
    have h2 : (2 : ℚ) ≤ (m : ℚ) := by exact_mod_cast hm
    linarith
  have h0 : log10 (axis 0) = l0 := by simpa using hax 0 (by omega)
  have h9 : log10 (axis (m - 1)) = l0 + ((m : ℚ) - 1) * del := by
    rw [hax (m - 1) (by omega), Nat.cast_sub (show 1 ≤ m by omega), Nat.cast_one]
  have hld : log10 (axis i) = l0 + (i : ℚ) * del := hax i (by omega)
  have hdl : (l0 + ((m : ℚ) - 1) * del - l0) / ((m : ℚ) - 1) = del := by
    rw [add_sub_cancel_left]
    exact mul_div_cancel_left₀ del hm1
  have hfr : (l0 + (i : ℚ) * del - l0) / del = (i : ℚ) := by
    rw [add_sub_cancel_left]
    exact mul_div_cancel_right₀ (i : ℚ) hdne
  have htr : truncC ((i : ℚ)) = (i : ℤ) := by
    unfold truncC
    rw [if_pos (by positivity)]
    exact Int.floor_natCast i
  have hind : min ((m : ℤ) - 1) (max 0 ((i : ℤ) + 1)) = (i : ℤ) + 1 := by omega
  simp only [Interpolate, List.map_cons, List.map_nil, List.cons.injEq, and_true]
  rw [h0, h9, hld, hdl, hfr, htr, hind]
  refine List.map_congr_left ?_
  intro c _
  have hc1 : (((i : ℤ) + 1 : ℤ) : ℚ) = (i : ℚ) + 1 := by push_cast; ring
  have hc2 : ((i : ℤ) + 1 - 1 : ℤ) = (i : ℤ) := by ring
  rw [hc1, hc2]
  have hc3 : (i : ℚ) + 1 - 1 = (i : ℚ) := by ring
  rw [hc3]
  have hc4 : l0 + (i : ℚ) * del - (l0 + (i : ℚ) * del) = 0 := sub_self _
  rw [hc4, zero_mul, zero_div, add_zero]

/-- Witness for C6: the spec's concrete scenario — axis `[1, 10, 100]`,
table `[[5], [50], [500]]`, query `axis[1] = 10`, column `0` — returns
exactly `[[50]]`. -/
theorem interpolate_node_exact_witness :
    Interpolate wLog 3 wAxis wTable [wAxis 1] [0] = [[(50 : ℚ)]] ∧ wAxis 1 = 10 := by
  have h := interpolate_node_exact wLog 3 wAxis wTable 0 1 (by norm_num)
    ⟨one_pos, by intro j hj; interval_cases j <;> norm_num [wLog, wAxis]⟩
    1 (by norm_num) [0]
  refine ⟨?_, by norm_num [wAxis]⟩
  rw [h]
  norm_num [wTable]

/-- C10: for a query whose log lies strictly above the axis maximum, the
bracket index clamps to `m - 1`, but the interpolation fraction
`(log_d - t1) / dlogtem` is not clamped: the written value is the linear
extrapolation `table[m-2][c] + f * (table[m-1][c] - table[m-2][c])` with
fraction `f > 1`, which can leave the range of the tabulated column
values (PointCombine.c lines 613-623; see the witness for a value above
the column maximum). -/
theorem interpolate_extrapolates_above (log10 : ℚ → ℚ) (m : ℕ) (axis : ℕ → ℚ)
    (table : ℤ → ℕ → ℚ) (l0 del : ℚ) (hm : 2 ≤ m)
    (hu : logUniform log10 m axis l0 del) (d : ℚ)
    (hd : l0 + ((m : ℚ) - 1) * del < log10 d) (columns : List ℕ) :
    Interpolate log10 m axis table [d] columns =
      [columns.map (fun c =>
        table ((m : ℤ) - 2) c +
          ((log10 d - (l0 + ((m : ℚ) - 2) * del)) / del) *
            (table ((m : ℤ) - 1) c - table ((m : ℤ) - 2) c))] ∧
      1 < (log10 d - (l0 + ((m : ℚ) - 2) * del)) / del := by
  obtain ⟨hdel, hax⟩ := hu
  have hdne : del ≠ 0 := ne_of_gt hdel
  have hm1 : ((m : ℚ) - 1) ≠ 0 := by
    have h2 : (2 : ℚ) ≤ (m : ℚ) := by exact_mod_cast hm
    linarith
  have h0 : log10 (axis 0) = l0 := by simpa using hax 0 (by omega)
  have h9 : log10 (axis (m - 1)) = l0 + ((m : ℚ) - 1) * del := by
    rw [hax (m - 1) (by omega), Nat.cast_sub (show 1 ≤ m by omega), Nat.cast_one]
  have hdl : (l0 + ((m : ℚ) - 1) * del - l0) / ((m : ℚ) - 1) = del := by
    rw [add_sub_cancel_left]
    exact mul_div_cancel_left₀ del hm1
  have hfrac : 1 < (log10 d - (l0 + ((m : ℚ) - 2) * del)) / del := by
    rw [lt_div_iff₀ hdel]
    nlinarith [hd]
  have hq : ((m : ℚ) - 1) < (log10 d - l0) / del := by
    rw [lt_div_iff₀ hdel]
    nlinarith [hd]
  have hq0 : (0 : ℚ) ≤ (log10 d - l0) / del := by
    have h2 : (2 : ℚ) ≤ (m : ℚ) := by exact_mod_cast hm
    nlinarith [hq]
  have hfl : ((m : ℤ) - 1) ≤ ⌊(log10 d - l0) / del⌋ := by
    apply Int.le_floor.mpr
    push_cast
    linarith [hq]
  have htr : truncC ((log10 d - l0) / del) = ⌊(log10 d - l0) / del⌋ := by
    unfold truncC
    rw [if_pos hq0]
  have hind :
      min ((m : ℤ) - 1) (max 0 (⌊(log10 d - l0) / del⌋ + 1)) = (m : ℤ) - 1 := by
    omega
  refine ⟨?_, hfrac⟩
  simp only [Interpolate, List.map_cons, List.map_nil, List.cons.injEq, and_true]
  rw [h0, h9, hdl, htr, hind]
  refine List.map_congr_left ?_
  intro c _
  have hc1 : (((m : ℤ) - 1 : ℤ) : ℚ) = (m : ℚ) - 1 := by push_cast; ring
  have hc2 : ((m : ℤ) - 1 - 1 : ℤ) = (m : ℤ) - 2 := by ring
  rw [hc1, hc2]
  have hc3 : l0 + ((m : ℚ) - 1) * del - (l0 + ((m : ℚ) - 1 - 1) * del) = del := by ring
  have hc4 : (m : ℚ) - 1 - 1 = (m : ℚ) - 2 := by ring
  rw [hc4]
  have hc5 : l0 + ((m : ℚ) - 1) * del - (l0 + ((m : ℚ) - 2) * del) = del := by ring
  rw [hc5, mul_div_right_comm]

/-- Witness for C10: axis `[1, 10, 100]`, table column `[5, 50, 500]`,
query `1000` (one decade above the maximum): the kernel writes `950`,
strictly above the column maximum `500`, with unclamped fraction `2`. -/
theorem interpolate_extrapolates_above_witness :
    Interpolate wLog 3 wAxis wTable [1000] [0] = [[(950 : ℚ)]] ∧
      (500 : ℚ) < 950 ∧ 1 < (wLog 1000 - (0 + ((3 : ℚ) - 2) * 1)) / 1 := by
  have h := interpolate_extrapolates_above wLog 3 wAxis wTable 0 1 (by norm_num)
    ⟨one_pos, by intro j hj; interval_cases j <;> norm_num [wLog, wAxis]⟩ 1000
    (by norm_num [wLog]) [0]
  refine ⟨?_, by norm_num, by simpa using h.2⟩
  rw [h.1]
  norm_num [wTable, wLog]

/-! ### CubeMapper: loop-characterisation lemmas -/

theorem foldl_congr_mem {α β : Type} (l : List α) (f g : β → α → β) :
    (∀ a ∈ l, ∀ st, f st a = g st a) → ∀ init : β, l.foldl f init = l.foldl g init := by
  induction l with
  | nil => intro _ init; rfl
  | cons a rest ih =>
    intro h init
    rw [List.foldl_cons, List.foldl_cons, h a (List.mem_cons_self a rest) init]
    exact ih (fun b hb st => h b (List.mem_cons_of_mem a hb) st) (g init a)

theorem foldl_flatMap_eq {α β γ : Type} (l : List α) (g : α → List β) (f : γ → β → γ) :
    ∀ init : γ, (l.flatMap g).foldl f init = l.foldl (fun st x => (g x).foldl f st) init := by
  induction l with
  | nil => intro init; rfl
  | cons a rest ih =>
    intro init
    rw [List.flatMap_cons, List.foldl_append, List.foldl_cons]
    exact ih _

theorem intRange_succ_self (n : ℤ) : intRange n (n + 1) = [n] := by
  have h1 : (n + 1 - n).toNat = 1 := by omega
  rw [intRange, h1]
  simp [List.range_succ]

theorem mem_allCells {d0 d1 d2 : ℕ} {q : ℕ × ℕ × ℕ} :
    q ∈ allCells d0 d1 d2 ↔ q.1 < d0 ∧ q.2.1 < d1 ∧ q.2.2 < d2 := by
  obtain ⟨x, y, z⟩ := q
  simp only [allCells, List.mem_flatMap, List.mem_map, List.mem_range]
  constructor
  · rintro ⟨a, ha, b, hb, c, hc, heq⟩
    cases heq
    exact ⟨ha, hb, hc⟩
  · rintro ⟨hx, hy, hz⟩
    exact ⟨x, hx, y, hy, z, hz, rfl⟩

theorem allCells_nodup (d0 d1 d2 : ℕ) : (allCells d0 d1 d2).Nodup := by
  have hinner : ∀ x : ℕ,
      ((List.range d1).flatMap (fun y => (List.range d2).map (fun z => (x, y, z)))).Nodup := by
    intro x
    rw [List.nodup_flatMap]
    constructor
    · intro y _
      refine List.Nodup.map ?_ (List.nodup_range _)
      intro z1 z2 h
      simpa using h
    · refine List.Pairwise.imp ?_ (List.nodup_range d1)
      intro a b hab
      intro q hqa hqb
      simp only [List.mem_map, List.mem_range] at hqa hqb
      obtain ⟨z1, _, hz1⟩ := hqa
      obtain ⟨z2, _, hz2⟩ := hqb
      apply hab
      have h3 := hz1.trans hz2.symm
      simp only [Prod.mk.injEq] at h3
      exact h3.2.1
  rw [allCells, List.nodup_flatMap]
  refine ⟨fun x _ => hinner x, ?_⟩
  refine List.Pairwise.imp ?_ (List.nodup_range d0)
  intro a b hab
  intro q hqa hqb
  simp only [List.mem_flatMap, List.mem_map, List.mem_range] at hqa hqb
  obtain ⟨y1, _, z1, _, hz1⟩ := hqa
  obtain ⟨y2, _, z2, _, hz2⟩ := hqb
  apply hab
  have h3 := hz1.trans hz2.symm
  simp only [Prod.mk.injEq] at h3
  exact h3.1

theorem applyPair_c_self (tc : ℚ → ℚ → ℚ × ℚ) (st : CubeState) (xc yc zc : ℤ)
    (xg yg zg : ℕ) :
    (applyPair tc st xc yc zc xg yg zg).c_data xc yc zc =
      (tc (st.c_data xc yc zc) (st.g_data xg yg zg)).1 := by
  simp [applyPair]

theorem applyPair_g_self (tc : ℚ → ℚ → ℚ × ℚ) (st : CubeState) (xc yc zc : ℤ)
    (xg yg zg : ℕ) :
    (applyPair tc st xc yc zc xg yg zg).g_data xg yg zg =
      (tc (st.c_data xc yc zc) (st.g_data xg yg zg)).2 := by
  simp [applyPair]

theorem applyPair_c_ne (tc : ℚ → ℚ → ℚ × ℚ) (st : CubeState) (xc yc zc : ℤ)
    (xg yg zg : ℕ) (a b c : ℤ) (h : ¬(a = xc ∧ b = yc ∧ c = zc)) :
    (applyPair tc st xc yc zc xg yg zg).c_data a b c = st.c_data a b c := by
  simp [applyPair, h]

theorem applyPair_g_ne (tc : ℚ → ℚ → ℚ × ℚ) (st : CubeState) (xc yc zc : ℤ)
    (xg yg zg : ℕ) (a b c : ℕ) (h : ¬(a = xg ∧ b = yg ∧ c = zg)) :
    (applyPair tc st xc yc zc xg yg zg).g_data a b c = st.g_data a b c := by
  simp [applyPair, h]

theorem cellStep_g_self (tc : ℚ → ℚ → ℚ × ℚ) (A : CubeArgs) (st : CubeState)
    (q : ℕ × ℕ × ℕ) :
    (cellStep tc A st q).g_data q.1 q.2.1 q.2.2 =
      (if A.ll = 0 ∧ A.g_cm q.1 q.2.1 q.2.2 = 0 then st.g_data q.1 q.2.1 q.2.2
       else (tc (st.c_data (q.1 : ℤ) (q.2.1 : ℤ) (q.2.2 : ℤ))
               (st.g_data q.1 q.2.1 q.2.2)).2) := by
  unfold cellStep
  split_ifs with h
  · rfl
  · exact applyPair_g_self tc st _ _ _ _ _ _

theorem cellStep_c_self (tc : ℚ → ℚ → ℚ × ℚ) (A : CubeArgs) (st : CubeState)
    (q : ℕ × ℕ × ℕ) :
    (cellStep tc A st q).c_data (q.1 : ℤ) (q.2.1 : ℤ) (q.2.2 : ℤ) =
      (if A.ll = 0 ∧ A.g_cm q.1 q.2.1 q.2.2 = 0 then
        st.c_data (q.1 : ℤ) (q.2.1 : ℤ) (q.2.2 : ℤ)
       else (tc (st.c_data (q.1 : ℤ) (q.2.1 : ℤ) (q.2.2 : ℤ))
               (st.g_data q.1 q.2.1 q.2.2)).1) := by
  unfold cellStep
  split_ifs with h
  · rfl
  · exact applyPair_c_self tc st _ _ _ _ _ _

theorem cellStep_g_ne (tc : ℚ → ℚ → ℚ × ℚ) (A : CubeArgs) (st : CubeState)
    (p q : ℕ × ℕ × ℕ) (h : q ≠ p) :
    (cellStep tc A st p).g_data q.1 q.2.1 q.2.2 = st.g_data q.1 q.2.1 q.2.2 := by
  unfold cellStep
  split_ifs with hm
  · rfl
  · refine applyPair_g_ne tc st _ _ _ _ _ _ _ _ _ ?_
    rintro ⟨h1, h2, h3⟩
    apply h
    obtain ⟨a, b, c⟩ := q
    obtain ⟨d, e, f⟩ := p
    simp_all

theorem cellStep_c_ne (tc : ℚ → ℚ → ℚ × ℚ) (A : CubeArgs) (st : CubeState)
    (p q : ℕ × ℕ × ℕ) (h : q ≠ p) :
    (cellStep tc A st p).c_data (q.1 : ℤ) (q.2.1 : ℤ) (q.2.2 : ℤ) =
      st.c_data (q.1 : ℤ) (q.2.1 : ℤ) (q.2.2 : ℤ) := by
  unfold cellStep
  split_ifs with hm
  · rfl
  · refine applyPair_c_ne tc st _ _ _ _ _ _ _ _ _ ?_
    rintro ⟨h1, h2, h3⟩
    apply h
    obtain ⟨a, b, c⟩ := q
    obtain ⟨d, e, f⟩ := p
    simp_all

theorem foldl_cells_g_notmem (tc : ℚ → ℚ → ℚ × ℚ) (A : CubeArgs) :
    ∀ (l : List (ℕ × ℕ × ℕ)) (st : CubeState) (q : ℕ × ℕ × ℕ), q ∉ l →
      (l.foldl (cellStep tc A) st).g_data q.1 q.2.1 q.2.2 = st.g_data q.1 q.2.1 q.2.2 := by
  intro l
  induction l with
  | nil => intro st q _; rfl
  | cons p rest ih =>
    intro st q hq
    rw [List.foldl_cons, ih (cellStep tc A st p) q (fun hm => hq (List.mem_cons_of_mem p hm)),
      cellStep_g_ne tc A st p q (fun he => hq (he ▸ List.mem_cons_self p rest))]

theorem foldl_cells_c_notmem (tc : ℚ → ℚ → ℚ × ℚ) (A : CubeArgs) :
    ∀ (l : List (ℕ × ℕ × ℕ)) (st : CubeState) (q : ℕ × ℕ × ℕ), q ∉ l →
      (l.foldl (cellStep tc A) st).c_data (q.1 : ℤ) (q.2.1 : ℤ) (q.2.2 : ℤ) =
        st.c_data (q.1 : ℤ) (q.2.1 : ℤ) (q.2.2 : ℤ) := by
  intro l
  induction l with
  | nil => intro st q _; rfl
  | cons p rest ih =>
    intro st q hq
    rw [List.foldl_cons, ih (cellStep tc A st p) q (fun hm => hq (List.mem_cons_of_mem p hm)),
      cellStep_c_ne tc A st p q (fun he => hq (he ▸ List.mem_cons_self p rest))]

theorem foldl_cells_char (tc : ℚ → ℚ → ℚ × ℚ) (A : CubeArgs) :
    ∀ (l : List (ℕ × ℕ × ℕ)), l.Nodup → ∀ (st : CubeState), ∀ q ∈ l,
      ((l.foldl (cellStep tc A) st).g_data q.1 q.2.1 q.2.2 =
        (if A.ll = 0 ∧ A.g_cm q.1 q.2.1 q.2.2 = 0 then st.g_data q.1 q.2.1 q.2.2
         else (tc (st.c_data (q.1 : ℤ) (q.2.1 : ℤ) (q.2.2 : ℤ))
                 (st.g_data q.1 q.2.1 q.2.2)).2)) ∧
      ((l.foldl (cellStep tc A) st).c_data (q.1 : ℤ) (q.2.1 : ℤ) (q.2.2 : ℤ) =
        (if A.ll = 0 ∧ A.g_cm q.1 q.2.1 q.2.2 = 0 then
          st.c_data (q.1 : ℤ) (q.2.1 : ℤ) (q.2.2 : ℤ)
         else (tc (st.c_data (q.1 : ℤ) (q.2.1 : ℤ) (q.2.2 : ℤ))
                 (st.g_data q.1 q.2.1 q.2.2)).1)) := by
  intro l
  induction l with
  | nil => intro _ st q hq; simp at hq
  | cons p rest ih =>
    intro hnd st q hq
    have hprest : p ∉ rest := (List.nodup_cons.mp hnd).1
    rcases List.mem_cons.mp hq with he | hm
    · subst he
      rw [List.foldl_cons]
      constructor
      · rw [foldl_cells_g_notmem tc A rest (cellStep tc A st q) q hprest,
          cellStep_g_self]
      · rw [foldl_cells_c_notmem tc A rest (cellStep tc A st q) q hprest,
          cellStep_c_self]
    · have hqp : q ≠ p := fun he => hprest (he ▸ hm)
      rw [List.foldl_cons]
      obtain ⟨ihg, ihc⟩ := ih (List.nodup_cons.mp hnd).2 (cellStep tc A st p) q hm
      rw [ihg, ihc, cellStep_g_ne tc A st p q hqp, cellStep_c_ne tc A st p q hqp]
      exact ⟨rfl, rfl⟩

theorem cubeRun_coinc_eq_fold (tc : ℚ → ℚ → ℚ × ℚ) (A : CubeArgs)
    (hle : ∀ a, A.c_le a = A.g_le a) (hdx : ∀ a, A.c_dx a = A.g_dx a)
    (hdims : ∀ a, A.cdims a = A.gdims a)
    (hre : ∀ a, A.c_re a = A.g_le a + A.g_dx a * (A.gdims a : ℚ))
    (hpos : ∀ a, 0 < A.g_dx a) :
    DataCubeGeneric tc A =
      (allCells (A.gdims 0) (A.gdims 1) (A.gdims 2)).foldl (cellStep tc A)
        (cubeInit A) := by
  have hbox : ∀ a : Fin 3, ∀ w : ℕ, w < A.gdims a →
      (¬ (A.g_le a + A.g_dx a * (w : ℚ) > A.c_re a)) ∧
      (¬ (A.g_le a + A.g_dx a * ((w : ℚ) + 1) < A.c_le a)) ∧
      (max ⌊(A.g_le a + A.g_dx a * (w : ℚ) - A.c_le a) / A.c_dx a⌋ 0 = (w : ℤ)) ∧
      (min ⌈(A.g_le a + A.g_dx a * ((w : ℚ) + 1) - A.c_le a) / A.c_dx a⌉
        ((A.cdims a : ℤ)) = (w : ℤ) + 1) := by
    intro a w hw
    have hdp := hpos a
    have hdn : A.g_dx a ≠ 0 := ne_of_gt hdp
    have hwle : (w : ℚ) ≤ (A.gdims a : ℚ) := by exact_mod_cast le_of_lt hw
    have hw0 : (0 : ℚ) ≤ (w : ℚ) := by positivity
    refine ⟨?_, ?_, ?_, ?_⟩
    · rw [hre a]
      push_neg
      nlinarith
    · rw [hle a]
      push_neg
      nlinarith
    · rw [hle a, hdx a, add_sub_cancel_left, mul_div_cancel_left₀ _ hdn,
        Int.floor_natCast]
      exact max_eq_left (Int.natCast_nonneg w)
    · rw [hle a, hdx a, hdims a, add_sub_cancel_left, mul_div_cancel_left₀ _ hdn]
      have hc : ((w : ℚ) + 1) = (((w : ℤ) + 1 : ℤ) : ℚ) := by push_cast; ring
      rw [hc, Int.ceil_intCast]
      have hwz : (w : ℤ) + 1 ≤ (A.gdims a : ℤ) := by exact_mod_cast hw
      exact min_eq_left hwz
  unfold DataCubeGeneric
  rw [allCells]
  simp only [foldl_flatMap_eq, List.foldl_map]
  refine foldl_congr_mem _ _ _ ?_ (cubeInit A)
  intro xg hxg stx
  rw [List.mem_range] at hxg
  obtain ⟨hx1, hx2, hx3, hx4⟩ := hbox 0 xg hxg
  simp only [if_neg hx1, if_neg hx2, hx3, hx4, intRange_succ_self]
  refine foldl_congr_mem _ _ _ ?_ stx
  intro yg hyg sty
  rw [List.mem_range] at hyg
  obtain ⟨hy1, hy2, hy3, hy4⟩ := hbox 1 yg hyg
  simp only [if_neg hy1, if_neg hy2, hy3, hy4, intRange_succ_self]
  refine foldl_congr_mem _ _ _ ?_ sty
  intro zg hzg stz
  rw [List.mem_range] at hzg
  obtain ⟨hz1, hz2, hz3, hz4⟩ := hbox 2 zg hzg
  by_cases hmask : A.ll = 0 ∧ A.g_cm xg yg zg = 0
  · rw [if_pos hmask]
    unfold cellStep
    rw [if_pos hmask]
  · rw [if_neg hmask, if_neg hz1, if_neg hz2]
    simp only [hz3, hz4, intRange_succ_self, List.foldl_cons, List.foldl_nil]
    unfold cellStep
    rw [if_neg hmask]

theorem cubeRun_coincident (tc : ℚ → ℚ → ℚ × ℚ) (A : CubeArgs)
    (hle : ∀ a, A.c_le a = A.g_le a) (hdx : ∀ a, A.c_dx a = A.g_dx a)
    (hdims : ∀ a, A.cdims a = A.gdims a)
    (hre : ∀ a, A.c_re a = A.g_le a + A.g_dx a * (A.gdims a : ℚ))
    (hpos : ∀ a, 0 < A.g_dx a)
    (i j k : ℕ) (hi : i < A.gdims 0) (hj : j < A.gdims 1) (hk : k < A.gdims 2) :
    ((DataCubeGeneric tc A).g_data i j k =
      (if A.ll = 0 ∧ A.g_cm i j k = 0 then A.g_data i j k
       else (tc (A.c_data (i : ℤ) (j : ℤ) (k : ℤ)) (A.g_data i j k)).2)) ∧
    ((DataCubeGeneric tc A).c_data (i : ℤ) (j : ℤ) (k : ℤ) =
      (if A.ll = 0 ∧ A.g_cm i j k = 0 then A.c_data (i : ℤ) (j : ℤ) (k : ℤ)
       else (tc (A.c_data (i : ℤ) (j : ℤ) (k : ℤ)) (A.g_data i j k)).1)) := by
  rw [cubeRun_coinc_eq_fold tc A hle hdx hdims hre hpos]
  exact foldl_cells_char tc A (allCells _ _ _) (allCells_nodup _ _ _) (cubeInit A)
    (i, j, k) (mem_allCells.mpr ⟨hi, hj, hk⟩)

/-- C2 counterexample: on a coincident 1×1×1 leaf setup with cube value
`7` and grid value `3`, `Py_DataCubeRefine` leaves the grid at `3` and
overwrites the CUBE cell with the grid's `3` — the refine rule copies the
grid value into the cube cell, not the cube value into the grid cell as
the claim states (the two directions in the claim are swapped). -/
theorem dataCube_refine_direction_counterexample :
    (Py_DataCubeRefine cexCube).c_data 0 0 0 = 3 ∧
      (Py_DataCubeRefine cexCube).g_data 0 0 0 = 3 ∧
      cexCube.c_data 0 0 0 = 7 ∧ cexCube.g_data 0 0 0 = 3 ∧
      (Py_DataCubeRefine cexCube).g_data 0 0 0 ≠ cexCube.c_data 0 0 0 := by
  have h := cubeRun_coincident dcRefine cexCube
    (fun a => rfl) (fun a => rfl) (fun a => rfl)
    (fun a => by norm_num [cexCube]) (fun a => by norm_num [cexCube])
    0 0 0 (by norm_num [cexCube]) (by norm_num [cexCube]) (by norm_num [cexCube])
  have hmask : ¬ (cexCube.ll = 0 ∧ cexCube.g_cm 0 0 0 = 0) := by norm_num [cexCube]
  obtain ⟨hg, hc⟩ := h
  rw [if_neg hmask] at hg hc
  simp only [Nat.cast_zero] at hc
  have hg3 : (DataCubeGeneric dcRefine cexCube).g_data 0 0 0 = 3 := by rw [hg]; rfl
  have hc3 : (DataCubeGeneric dcRefine cexCube).c_data 0 0 0 = 3 := by rw [hc]; rfl
  simp only [Py_DataCubeRefine]
  refine ⟨hc3, hg3, rfl, rfl, ?_⟩
  rw [hg3]
  norm_num [cexCube]

/-- C2 (amended): the combine rules operate on (cube cell, grid cell)
pairs; `dcRefine` (used by `DataCubeRefine`) unconditionally overwrites
the CUBE cell with the source grid cell's value and leaves the grid data
unchanged, while `dcReplace` (used by `DataCubeReplace`) unconditionally
overwrites the source GRID cell with the cube cell's value and leaves the
cube data unchanged; neither accumulates (the written value does not
depend on the target's prior value).  The directions are the reverse of
the claim's (PointCombine.c lines 261-267, 534-536). -/
theorem dataCube_combine_rules (st : CubeState) (xc yc zc : ℤ) (xg yg zg : ℕ) :
    ((applyPair dcRefine st xc yc zc xg yg zg).c_data xc yc zc =
        st.g_data xg yg zg) ∧
    (∀ a b c : ℕ,
        (applyPair dcRefine st xc yc zc xg yg zg).g_data a b c = st.g_data a b c) ∧
    ((applyPair dcReplace st xc yc zc xg yg zg).g_data xg yg zg =
        st.c_data xc yc zc) ∧
    (∀ a b c : ℤ,
        (applyPair dcReplace st xc yc zc xg yg zg).c_data a b c = st.c_data a b c) := by
  refine ⟨?_, ?_, ?_, ?_⟩
  · rw [applyPair_c_self]; rfl
  · intro a b c
    by_cases h : a = xg ∧ b = yg ∧ c = zg
    · obtain ⟨h1, h2, h3⟩ := h
      subst h1; subst h2; subst h3
      rw [applyPair_g_self]; rfl
    · exact applyPair_g_ne _ _ _ _ _ _ _ _ _ _ _ h
  · rw [applyPair_g_self]; rfl
  · intro a b c
    by_cases h : a = xc ∧ b = yc ∧ c = zc
    · obtain ⟨h1, h2, h3⟩ := h
      subst h1; subst h2; subst h3
      rw [applyPair_c_self]; rfl
    · exact applyPair_c_ne _ _ _ _ _ _ _ _ _ _ _ h


/-- C7: on coincident grids (same left edges, same positive dx, equal
dimensions, cube right edge consistent with left edge + dx * dims),
running the replace rule and then the refine rule over the whole domain
leaves every cube data value exactly as it was: replace only writes grid
data (painting the cube's values onto the grid), and refine then copies
those values back into the cube (skipped cells were never touched). -/
theorem dataCube_replace_refine_roundtrip (A : CubeArgs)
    (hle : ∀ a, A.c_le a = A.g_le a) (hdx : ∀ a, A.c_dx a = A.g_dx a)
    (hdims : ∀ a, A.cdims a = A.gdims a)
    (hre : ∀ a, A.c_re a = A.g_le a + A.g_dx a * (A.gdims a : ℚ))
    (hpos : ∀ a, 0 < A.g_dx a)
    (i j k : ℕ) (hi : i < A.gdims 0) (hj : j < A.gdims 1) (hk : k < A.gdims 2) :
    (Py_DataCubeRefine (cubeRerun A (Py_DataCubeReplace A))).c_data
        (i : ℤ) (j : ℤ) (k : ℤ) = A.c_data (i : ℤ) (j : ℤ) (k : ℤ) := by
  have hrep := cubeRun_coincident dcReplace A hle hdx hdims hre hpos i j k hi hj hk
  have href := cubeRun_coincident dcRefine (cubeRerun A (Py_DataCubeReplace A))
    hle hdx hdims hre hpos i j k hi hj hk
  obtain ⟨hrg, hrc⟩ := hrep
  obtain ⟨hfg, hfc⟩ := href
  by_cases hmask : A.ll = 0 ∧ A.g_cm i j k = 0
  · have hmask2 : (cubeRerun A (Py_DataCubeReplace A)).ll = 0 ∧
        (cubeRerun A (Py_DataCubeReplace A)).g_cm i j k = 0 := hmask
    rw [if_pos hmask] at hrc
    rw [if_pos hmask2] at hfc
    calc (Py_DataCubeRefine (cubeRerun A (Py_DataCubeReplace A))).c_data
          (i : ℤ) (j : ℤ) (k : ℤ)
        = (cubeRerun A (Py_DataCubeReplace A)).c_data (i : ℤ) (j : ℤ) (k : ℤ) := hfc
      _ = A.c_data (i : ℤ) (j : ℤ) (k : ℤ) := hrc
  · have hmask2 : ¬ ((cubeRerun A (Py_DataCubeReplace A)).ll = 0 ∧
        (cubeRerun A (Py_DataCubeReplace A)).g_cm i j k = 0) := hmask
    rw [if_neg hmask] at hrc hrg
    rw [if_neg hmask2] at hfc
    calc (Py_DataCubeRefine (cubeRerun A (Py_DataCubeReplace A))).c_data
          (i : ℤ) (j : ℤ) (k : ℤ)
        = (cubeRerun A (Py_DataCubeReplace A)).g_data i j k := hfc
      _ = (dcReplace (A.c_data (i : ℤ) (j : ℤ) (k : ℤ)) (A.g_data i j k)).2 := hrg
      _ = A.c_data (i : ℤ) (j : ℤ) (k : ℤ) := rfl

/-- Witness for C7: at the coincident `cexCube` setup the cube value `7`
survives the replace-then-refine round trip. -/
theorem dataCube_replace_refine_roundtrip_witness :
    (Py_DataCubeRefine (cubeRerun cexCube (Py_DataCubeReplace cexCube))).c_data 0 0 0 =
        cexCube.c_data 0 0 0 ∧ cexCube.c_data 0 0 0 = 7 := by
  have h := dataCube_replace_refine_roundtrip cexCube (fun a => rfl) (fun a => rfl)
    (fun a => rfl) (fun a => by norm_num [cexCube]) (fun a => by norm_num [cexCube])
    0 0 0 (by norm_num [cexCube]) (by norm_num [cexCube]) (by norm_num [cexCube])
  exact ⟨by simpa using h, by norm_num [cexCube]⟩

/-! ### HistogramAccumulator and validation theorems -/

/-- C8 (code bug evaluation): `bins_x->data` has type `char*`, so
`i = bins_x->data[n]` reads the `n`-th BYTE of the int64 buffer, not the
`n`-th element.  With `bins_x = [0, 1]` the sample `n = 1` uses row index
`bufByte [0,1] 1 = 0` (byte 1 of element 0) although `bin_row[1] = 1`:
the run never touches row 1 (`used[1][0]` stays `0`, `weight_sum[1][0]`
stays `0`) even though its weight byte is nonzero, and `used[0][0]` is
set; validation passes and the call returns the constant `1`.  The same
`char` reads make `wsource->data[n]` a raw byte of the float64 buffer
rather than `weight[n]`. -/
theorem bin2DProfile_byte_bug :
    bufByte [0, 1] 1 = 0 ∧ [(0 : ℤ), 1].getD 1 0 = 1 ∧
      binCheck bugBin = none ∧
      Py_Bin2DProfile_call bugBin = (none, Py_Bin2DProfile_loop bugBin, some 1) ∧
      (Py_Bin2DProfile_loop bugBin).used 1 0 = 0 ∧
      (Py_Bin2DProfile_loop bugBin).used 0 0 = 1 ∧
      (Py_Bin2DProfile_loop bugBin).wres 1 0 = 0 := by
  refine ⟨by decide, by decide, by decide, ?_, ?_, ?_, ?_⟩
  · have h : binCheck bugBin = none := by decide
    simp [Py_Bin2DProfile_call, h]
  · norm_num [Py_Bin2DProfile_loop, bugBin, binInit, bufByte, int64Byte,
      List.range_succ]
  · norm_num [Py_Bin2DProfile_loop, bugBin, binInit, bufByte, int64Byte,
      List.range_succ]
  · norm_num [Py_Bin2DProfile_loop, bugBin, binInit, bufByte, int64Byte,
      List.range_succ]

/-- C9: in each of the four kernels every validation check runs before
the processing loop, so whenever a check fails the call reports the error
and every caller-owned output buffer is returned exactly as it came in
(`goto _fail` fires before any write). -/
theorem validation_atomicity (A : PtArgs) (S1 : CGShapes) (b : BinRaw)
    (tc : ℚ → ℚ → ℚ × ℚ) (CA : CubeArgs) (S3 : CubeShapes)
    (lg : ℚ → ℚ) (m : ℕ) (axis : ℕ → ℚ) (table : ℤ → ℕ → ℚ)
    (desired : List ℚ) (columns : List ℕ) (S4 : InterpShapes) :
    (cgCheck A S1 ≠ none →
      Py_CombineGrids_call A S1 = (cgCheck A S1, initState A)) ∧
    (binCheck b ≠ none →
      Py_Bin2DProfile_call b = (binCheck b, binInit b, none)) ∧
    (cubeCheck S3 ≠ none →
      DataCubeGeneric_call tc CA S3 = (cubeCheck S3, cubeInit CA)) ∧
    (interpCheck S4 ≠ none →
      Py_Interpolate_call lg m axis table desired columns S4 =
        (interpCheck S4, none)) := by
  refine ⟨fun h1 => ?_, fun h2 => ?_, fun h3 => ?_, fun h4 => ?_⟩
  · cases hc : cgCheck A S1 with
    | none => exact absurd hc h1
    | some e => simp [Py_CombineGrids_call, hc]
  · cases hc : binCheck b with
    | none => exact absurd hc h2
    | some e => simp [Py_Bin2DProfile_call, hc]
  · cases hc : cubeCheck S3 with
    | none => exact absurd hc h3
    | some e => simp [DataCubeGeneric_call, hc]
  · cases hc : interpCheck S4 with
    | none => exact absurd hc h4
    | some e => simp [Py_Interpolate_call, hc]

/-- Witness for C9: concrete failing inputs for each of the four kernels
(a `src_y` size mismatch, a `bins_y` size mismatch, a 2-element `g_le`,
and a 1-versus-2 column-count mismatch) all abort with the error and the
untouched buffers. -/
theorem validation_atomicity_witness :
    (Py_CombineGrids_call wPtArgs badShapesCG =
        (cgCheck wPtArgs badShapesCG, initState wPtArgs)) ∧
      (Py_Bin2DProfile_call badBin = (binCheck badBin, binInit badBin, none)) ∧
      (DataCubeGeneric_call dcRefine cexCube badCubeShapes =
        (cubeCheck badCubeShapes, cubeInit cexCube)) ∧
      (Py_Interpolate_call wLog 3 wAxis wTable [10] [0] badInterpShapes =
        (interpCheck badInterpShapes, none)) ∧
      cgCheck wPtArgs badShapesCG ≠ none ∧ binCheck badBin ≠ none ∧
      cubeCheck badCubeShapes ≠ none ∧ interpCheck badInterpShapes ≠ none := by
  have h := validation_atomicity wPtArgs badShapesCG badBin dcRefine cexCube
    badCubeShapes wLog 3 wAxis wTable [10] [0] badInterpShapes
  exact ⟨h.1 (by decide), h.2.1 (by decide), h.2.2.1 (by decide),
    h.2.2.2 (by decide), by decide, by decide, by decide, by decide⟩
